import Mathlib

/-
Verification of the document-construction core of the til repository.
The embedded code is the hyperjsx composer segment of src/til.mjs:
isHeadElement, OpenGraph, JSONLD, GTag, Document, Attribution, License,
Page and Feed.  External collaborators (node path.relative, the markdown
compiler mdjsx/render, luxon locale formatting, encodeURIComponent) are
passed in as parameters, as the spec treats them as black boxes.
-/

/-- Attribute values occurring in the composer segment: strings and
booleans (async, allowfullscreen, data-anchor). -/
inductive AVal where
  | s (v : String)
  | b (v : Bool)
deriving DecidableEq

/-- A hyperjsx child after the node builder has removed the sentinels
false, null and undefined: an element (type, attributes, children), a
text child (empty strings are preserved by the builder), or the number
NaN.  NaN arises on the unpublished-page line of the source, where a
stray unary minus is applied to the robots meta node. -/
inductive Child where
  | elem (type : String) (attrs : List (String × AVal)) (children : List Child)
  | text (s : String)
  | nan

/-- The type tag of a child, as read by element.type in the source;
text and NaN children have no type (undefined in the source). -/
def Child.typeOf : Child → Option String
  | .elem t _ _ => some t
  | _ => none

/-- The child list of an element; non-elements have none. -/
def Child.childrenOf : Child → List Child
  | .elem _ _ cs => cs
  | _ => []

/-- The attribute list of an element; non-elements have none. -/
def Child.attrsOf : Child → List (String × AVal)
  | .elem _ attrs _ => attrs
  | _ => []

/-- Look up an attribute value by name. -/
def attrVal (k : String) (attrs : List (String × AVal)) : Option AVal :=
  (attrs.find? fun kv => kv.1 == k).map fun kv => kv.2

/-- The head region of a produced html document: the children of its
first child. -/
def headOf (doc : Child) : List Child :=
  (doc.childrenOf.getD 0 Child.nan).childrenOf

/-- The body region of a produced html document: the children of its
second child. -/
def bodyOf (doc : Child) : List Child :=
  (doc.childrenOf.getD 1 Child.nan).childrenOf

/-- Text of the first child element with the given tag: used to read
the updated and published elements of the feed. -/
def elemText (tag : String) (c : Child) : Option String :=
  (c.childrenOf.find? fun ch => ch.typeOf == some tag).bind fun ch =>
    match ch.childrenOf with
    | [Child.text s] => some s
    | _ => none

/-- JavaScript String.prototype.startsWith: the prefix of the same
length equals the probe. -/
def jsStartsWith (s p : String) : Bool := s.take p.length == p

/-- A storage or front-matter timestamp.  The luxon DateTime objects of
the source are valued by their epoch milliseconds (the sort comparator
a - b coerces through valueOf), and serialization is derived from that
value. -/
structure DateTime where
  millis : Int
deriving DecidableEq

/-- Civil date from days since the Unix epoch (standard era-based
calendar algorithm); returns (year, month, day). -/
def civilFromDays (z0 : Int) : Int × Nat × Nat :=
  let z := z0 + 719468
  let era : Int := Int.ediv z 146097
  let doe : Nat := (Int.emod z 146097).toNat
  let yoe : Nat := (doe - doe / 1460 + doe / 36524 - doe / 146096) / 365
  let y : Int := (yoe : Int) + era * 400
  let doy : Nat := doe - (365 * yoe + yoe / 4 - yoe / 100)
  let mp : Nat := (5 * doy + 2) / 153
  let d : Nat := doy - (153 * mp + 2) / 5 + 1
  let m : Nat := if mp < 10 then mp + 3 else mp - 9
  (if m ≤ 2 then y + 1 else y, m, d)

/-- Two-digit zero padding. -/
def pad2 (n : Nat) : String := if n < 10 then "0" ++ toString n else toString n

/-- Three-digit zero padding. -/
def pad3 (n : Nat) : String :=
  if n < 10 then "00" ++ toString n
  else if n < 100 then "0" ++ toString n
  else toString n

/-- Four-digit zero padding. -/
def pad4 (n : Nat) : String :=
  if n < 10 then "000" ++ toString n
  else if n < 100 then "00" ++ toString n
  else if n < 1000 then "0" ++ toString n
  else toString n

/-- ISO-8601 serialization of a timestamp (UTC), standing for luxon
toISO: a deterministic function of the epoch milliseconds. -/
def DateTime.toISO (dt : DateTime) : String :=
  let days : Int := Int.ediv dt.millis 86400000
  let ms : Nat := (Int.emod dt.millis 86400000).toNat
  let c := civilFromDays days
  (if c.1 < 0 then "-" ++ pad4 (-c.1).toNat else pad4 c.1.toNat) ++ "-" ++
    pad2 c.2.1 ++ "-" ++ pad2 c.2.2 ++ "T" ++
    pad2 (ms / 3600000) ++ ":" ++ pad2 (ms / 60000 % 60) ++ ":" ++
    pad2 (ms / 1000 % 60) ++ "." ++ pad3 (ms % 1000) ++ "Z"

/-- The year of a timestamp, standing for the luxon year accessor. -/
def DateTime.year (dt : DateTime) : Int :=
  (civilFromDays (Int.ediv dt.millis 86400000)).1

/-- Modelled from the spec: the markdown compiler (mdjsx.mjs and
markdown.mjs are not under src).  A compiled markdown body is a list of
top-level blocks; each block carries the texts of its inline nodes in
order, which is all the derived views below need (spec section 4.3). -/
inductive MDBlock where
  | para (inlines : List String)
  | block (kind : String) (inlines : List String)

/-- A compiled markdown document: its top-level blocks in order. -/
abbrev MDDoc := List MDBlock

/-- Whether a block is a top-level paragraph. -/
def MDBlock.isPara : MDBlock → Bool
  | .para _ => true
  | _ => false

/-- Modelled from the spec: firstParagraph returns the first top-level
paragraph node of the compiled tree (markdown.mjs is not under src). -/
def firstParagraph (doc : MDDoc) : Option MDBlock := doc.find? MDBlock.isPara

/-- Modelled from the spec: textContent is all rendered text of a node
with markup stripped (markdown.mjs is not under src). -/
def textContent : MDBlock → String
  | .para xs => String.join xs
  | .block _ xs => String.join xs

/-- The text the source extracts for the metadescription: textContent
of the first paragraph, empty when no paragraph exists. -/
def textFP (doc : MDDoc) : String :=
  match firstParagraph doc with
  | some b => textContent b
  | none => ""

/-- External collaborators used by the composers, treated as black
boxes: relative is node path.relative, renderMD is the fully rendered
HTML of a compiled body (render of mdjsx output), content is the
expanded Content component subtree, locale is luxon toLocaleString with
the option set of the Attribution call site, encodeURI is
encodeURIComponent. -/
structure Externals where
  relative : String → String → String
  renderMD : MDDoc → String
  content : MDDoc → Child
  locale : DateTime → String
  encodeURI : String → String

/-- Per-entry front matter, per the source and spec section 3. -/
structure Frontmatter where
  title : String
  permalink : String
  date : DateTime
  tags : List String
  published : Option Bool

/-- A content entry: filename, front matter, compiled body and the
storage last-modified timestamp. -/
structure Entry where
  filename : String
  frontmatter : Frontmatter
  markdown : MDDoc
  lastModified : DateTime

/-- Head-vs-body classification of the shared Document wrapper,
translated from isHeadElement in the source: a switch on element.type
over the four recognized head tags; any other type, and any child
without a type, is body content. -/
def isHeadElement (element : Child) : Bool :=
  match element with
  | .elem "title" _ _ => true
  | .elem "meta" _ _ => true
  | .elem "link" _ _ => true
  | .elem "script" _ _ => true
  | _ => false

/-- The meta element OpenGraph builds for one truthy entry: the key
goes under the name attribute when it starts with twitter:, under the
property attribute otherwise, and the value under content. -/
def ogMetaOf (nc : String × String) : Child :=
  Child.elem "meta"
    [(if jsStartsWith nc.1 "twitter:" then "name" else "property", AVal.s nc.1),
     ("content", AVal.s nc.2)] []

/-- Translated from OpenGraph in the source: each entry maps to
content and h(meta, ...); a falsy (empty-string) value short-circuits
to the value itself, which the node builder keeps as an empty text
child, so no meta element is produced for it. -/
def OpenGraph (data : List (String × String)) : List Child :=
  data.map fun nc => if nc.2 = "" then Child.text "" else ogMetaOf nc

/-- A JSON value of the shapes the composers build: strings and flat
string-valued objects. -/
inductive JVal where
  | s (v : String)
  | obj (fields : List (String × String))
deriving DecidableEq

/-- A lower-case hex digit. -/
def hexDigit (n : Nat) : String :=
  if n < 10 then toString n else String.singleton (Char.ofNat (97 + n - 10))

/-- JSON escaping of one character, as JSON.stringify performs it. -/
def escJSONChar (c : Char) : String :=
  if c = '"' then "\\\""
  else if c = '\\' then "\\\\"
  else if c = '\n' then "\\n"
  else if c = '\r' then "\\r"
  else if c = '\t' then "\\t"
  else if c.toNat < 32 then "\\u00" ++ hexDigit (c.toNat / 16) ++ hexDigit (c.toNat % 16)
  else String.singleton c

/-- JSON escaping of a string. -/
def escJSON (s : String) : String := String.join (s.data.map escJSONChar)

/-- A JSON string literal. -/
def jstr (s : String) : String := "\"" ++ escJSON s ++ "\""

/-- Serialization of one JSON value at the given indentation, matching
JSON.stringify with indent 2. -/
def JVal.stringify (ind : Nat) : JVal → String
  | .s v => jstr v
  | .obj fields =>
      "\x7b\n" ++
        String.intercalate ",\n"
          (fields.map fun kv => String.mk (List.replicate (ind + 2) ' ') ++ jstr kv.1 ++ ": " ++ jstr kv.2) ++
        "\n" ++ String.mk (List.replicate ind ' ') ++ "\x7d"

/-- The members JSON.stringify serializes: keys whose value is
undefined are omitted entirely. -/
def jsonldDefined (data : List (String × Option JVal)) : List (String × JVal) :=
  data.filterMap fun kv => kv.2.map fun v => (kv.1, v)

/-- JSON.stringify(data, null, 2) over the defined members, in order. -/
def jsonStringify (fields : List (String × JVal)) : String :=
  "\x7b\n" ++
    String.intercalate ",\n"
      (fields.map fun kv => "  " ++ jstr kv.1 ++ ": " ++ JVal.stringify 2 kv.2) ++
    "\n\x7d"

/-- Translated from JSONLD in the source: prepends the schema.org
context and emits a script element whose innerHTML is the pretty
printed JSON surrounded by newlines. -/
def JSONLD (data : List (String × Option JVal)) : Child :=
  Child.elem "script"
    [("type", AVal.s "application/ld+json"),
     ("innerHTML", AVal.s ("\n" ++
        jsonStringify (jsonldDefined (("@context", some (JVal.s "https://schema.org/")) :: data)) ++
        "\n"))] []

/-- Translated from GTag in the source: the two analytics scripts. -/
def GTag : List Child :=
  [Child.elem "script"
     [("async", AVal.b true),
      ("src", AVal.s "https://www.googletagmanager.com/gtag/js?id=UA-61714711-1")] [],
   Child.elem "script"
     [("innerHTML", AVal.s ("\n      window.dataLayer = window.dataLayer || [];\n      function gtag()\x7bdataLayer.push(arguments);\x7d\n      gtag(\x27js\x27, new Date());\n      gtag(\x27config\x27, \x27UA-61714711-1\x27);\n    "))] []]

/-- The charset meta the Document wrapper always puts first in head. -/
def charsetMeta : Child := Child.elem "meta" [("charset", AVal.s "UTF-8")] []

/-- The canonical link of the Document wrapper: site root plus the
ambient path context. -/
def canonicalLink (path : String) : Child :=
  Child.elem "link"
    [("rel", AVal.s "canonical"),
     ("href", AVal.s ("https://leebyron.com/til" ++ path))] []

/-- The fixed head chrome of the Document wrapper after the composer
children: viewport, canonical, favicon, stylesheet, feed link and the
analytics scripts.  Relative links resolve against the ambient path. -/
def headChrome (ext : Externals) (path : String) : List Child :=
  [Child.elem "meta"
     [("name", AVal.s "viewport"),
      ("content", AVal.s "width=device-width, initial-scale=1")] [],
   canonicalLink path,
   Child.elem "link"
     [("rel", AVal.s "shortcut icon"),
      ("href", AVal.s (ext.relative path "/assets/favicon.png"))] [],
   Child.elem "link"
     [("rel", AVal.s "stylesheet"),
      ("href", AVal.s (ext.relative path "/assets/style.css"))] [],
   Child.elem "link"
     [("rel", AVal.s "alternate"), ("type", AVal.s "application/atom+xml"),
      ("title", AVal.s "Reader Feed"),
      ("href", AVal.s (ext.relative path "/feed.xml"))] []] ++ GTag

/-- The fixed header the Document wrapper puts first in body. -/
def headerChrome (ext : Externals) (path : String) : Child :=
  Child.elem "header" []
    [Child.elem "a" [("href", AVal.s "https://leebyron.com")]
      [Child.elem "img"
        [("src", AVal.s (ext.relative path "/assets/logo.svg")),
         ("alt", AVal.s "Lee Byron")] []]]

/-- Translated from Document in the source: head holds the charset
meta, then the children classified as head content in their original
order, then the fixed chrome; body holds the header, then the
remaining children in their original order.  The ambient path context
is the explicit path argument. -/
def Document (ext : Externals) (path : String) (children : List Child) : Child :=
  Child.elem "html" []
    [Child.elem "head" []
       (charsetMeta :: (children.filter isHeadElement ++ headChrome ext path)),
     Child.elem "body" []
       (headerChrome ext path :: children.filter fun child => !isHeadElement child)]

/-- Translated from Attribution in the source: the license footer
fragment with the attribution, creation time, raw and edit links. -/
def Attribution (ext : Externals) (filename : String) (frontmatter : Frontmatter) : List Child :=
  [Child.text "This ",
   Child.elem "a"
     [("property", AVal.s "dct:title"), ("rel", AVal.s "cc:attributionURL"),
      ("href", AVal.s ("https://leebyron.com/til/" ++ frontmatter.permalink ++ "/"))]
     [Child.text "til"],
   Child.text " was created ",
   Child.elem "span"
     [("property", AVal.s "dct:created"), ("content", AVal.s frontmatter.date.toISO)]
     [Child.text (ext.locale frontmatter.date)],
   Child.text " ⸱ ",
   Child.elem "a"
     [("href", AVal.s ("https://raw.githubusercontent.com/leebyron/til/main/entries/" ++
        ext.encodeURI filename)),
      ("target", AVal.s "__blank")]
     [Child.text "raw"],
   Child.text " ⸱ ",
   Child.elem "a"
     [("href", AVal.s ("https://github.com/leebyron/til/edit/main/entries/" ++
        ext.encodeURI filename ++ "#L8")),
      ("target", AVal.s "__blank")]
     [Child.text "edit"]]

/-- Translated from License in the source: the licensing block, with
the optional children fragment followed by a break, the copyright
line, the license links and the feed link. -/
def License (ext : Externals) (path : String) (year : String) (children : Option (List Child)) : Child :=
  Child.elem "div"
    [("class", AVal.s "license"),
     ("xmlns:cc", AVal.s "http://creativecommons.org/ns"),
     ("xmlns:dct", AVal.s "http://purl.org/dc/terms/")]
    ((match children with
      | some cs => cs ++ [Child.elem "br" [] []]
      | none => []) ++
     [Child.text "© ",
      Child.elem "span" [("rel", AVal.s "dct:dateCopyrighted")] [Child.text year],
      Child.text " ",
      Child.elem "a"
        [("rel", AVal.s "cc:attributionURL dct:creator"),
         ("property", AVal.s "cc:attributionName"),
         ("href", AVal.s "https://leebyron.com")]
        [Child.text "Lee Byron"],
      Child.text " ⸱ ",
      Child.text "licensed under ",
      Child.elem "a"
        [("href", AVal.s "http://creativecommons.org/licenses/by/4.0/"),
         ("target", AVal.s "_blank"),
         ("rel", AVal.s "cc:license license noopener noreferrer")]
        [Child.text "CC BY 4.0",
         Child.elem "img" [("src", AVal.s "https://mirrors.creativecommons.org/presskit/icons/cc.svg")] [],
         Child.elem "img" [("src", AVal.s "https://mirrors.creativecommons.org/presskit/icons/by.svg")] []],
      Child.text " ⸱ ",
      Child.elem "a"
        [("href", AVal.s (ext.relative path "/feed.xml")),
         ("rel", AVal.s "alternate feed"),
         ("type", AVal.s "application/atom+xml")]
        [Child.text "feed"]])

/-- The path context the Entry Page binds for its whole subtree. -/
def pagePath (fm : Frontmatter) : String := "/" ++ fm.permalink ++ "/"

/-- The OpenGraph data of the Entry Page, in source order; the
og:description value is the first-paragraph text sliced to its first
200 characters. -/
def pageOgData (fm : Frontmatter) (lastModified : DateTime) (markdown : MDDoc) :
    List (String × String) :=
  [("og:url", "https://leebyron.com/til/" ++ fm.permalink ++ "/"),
   ("og:title", "til / " ++ fm.title ++ " — Lee Byron"),
   ("og:description", (textFP markdown).take 200),
   ("og:type", "article"),
   ("article:author:first_name", "Lee"),
   ("article:author:last_name", "Byron"),
   ("article:published_time", fm.date.toISO),
   ("article:modified_time", lastModified.toISO),
   ("twitter:card", "summary"),
   ("twitter:creator", "@leeb")]

/-- The JSON-LD data of the Entry Page, in source order; keywords is
tags joined by a comma and space, or undefined when that join is falsy
(the empty string). -/
def pageJsonldData (fm : Frontmatter) (lastModified : DateTime) :
    List (String × Option JVal) :=
  [("@type", some (JVal.s "LearningResource")),
   ("name", some (JVal.s fm.title)),
   ("author", some (JVal.obj
     [("@type", "Person"), ("name", "Lee Byron"), ("url", "http://leebyron.com")])),
   ("url", some (JVal.s ("https://leebyron.com/til/" ++ fm.permalink ++ "/"))),
   ("datePublished", some (JVal.s fm.date.toISO)),
   ("dateModified", some (JVal.s lastModified.toISO)),
   ("keywords",
     if String.intercalate ", " fm.tags = "" then none
     else some (JVal.s (String.intercalate ", " fm.tags))),
   ("isPartOf", some (JVal.s "https://leebyron.com/til/")),
   ("license", some (JVal.s "https://creativecommons.org/licenses/by/4.0/"))]

/-- The top-level children the Entry Page hands to Document, in source
order.  The first child translates the line published === false and
minus h(meta robots): the stray unary minus turns the meta node into
NaN, so when published is strictly false the child is NaN (kept by the
builder, classified as body content); otherwise it is false, which the
builder removes. -/
def pageChildren (ext : Externals) (filename : String) (lastModified : DateTime)
    (fm : Frontmatter) (markdown : MDDoc) : List Child :=
  (if fm.published = some false then [Child.nan] else []) ++
  [Child.elem "title" [] [Child.text ("til / " ++ fm.title ++ " — Lee Byron")]] ++
  OpenGraph (pageOgData fm lastModified markdown) ++
  [JSONLD (pageJsonldData fm lastModified),
   Child.elem "article" []
     [Child.elem "h1" []
        [Child.elem "a" [("href", AVal.s "../")] [Child.text "til"],
         Child.elem "span" [] [Child.text fm.title]],
      ext.content markdown],
   Child.elem "footer" []
     [License ext (pagePath fm) (toString fm.date.year)
        (some (Attribution ext filename fm))]]

/-- Translated from Page in the source: binds the path context to the
permalink path and wraps the children in the shared Document. -/
def Page (ext : Externals) (filename : String) (lastModified : DateTime)
    (fm : Frontmatter) (markdown : MDDoc) : Child :=
  Document ext (pagePath fm) (pageChildren ext filename lastModified fm markdown)

/-- Comparison the feed sort uses: the comparator a - b on luxon
DateTimes orders by epoch milliseconds ascending. -/
def dtLe (a b : DateTime) : Bool := a.millis ≤ b.millis

/-- The millisecond order on timestamps is antisymmetric: equal
milliseconds mean equal timestamps. -/
instance : IsAntisymm DateTime fun a b => dtLe a b = true where
  antisymm a b h1 h2 := by
    cases a with
    | mk am =>
      cases b with
      | mk bm =>
        simp only [dtLe, decide_eq_true_eq] at h1 h2
        have hm : am = bm := le_antisymm h1 h2
        rw [hm]

/-- Translated from the entry element of Feed in the source. -/
def feedEntry (ext : Externals) (e : Entry) : Child :=
  Child.elem "entry" []
    ([Child.elem "id" []
        [Child.text ("https://leebyron.com/til/" ++ e.frontmatter.permalink ++ "/")],
      Child.elem "link"
        [("rel", AVal.s "alternate"), ("type", AVal.s "text/html"),
         ("href", AVal.s ("https://leebyron.com/til/" ++ e.frontmatter.permalink ++ "/"))] [],
      Child.elem "published" [] [Child.text e.frontmatter.date.toISO],
      Child.elem "updated" [] [Child.text e.lastModified.toISO],
      Child.elem "title" [] [Child.text e.frontmatter.title],
      Child.elem "author" []
        [Child.elem "name" [] [Child.text "Lee Byron"],
         Child.elem "uri" [] [Child.text "https://leebyron.com"]]] ++
     e.frontmatter.tags.map (fun tag => Child.elem "category" [("term", AVal.s tag)] []) ++
     [Child.elem "content"
        [("type", AVal.s "html"),
         ("innerHTML", AVal.s ("<![CDATA[" ++ ext.renderMD e.markdown ++ "]]>"))] [],
      Child.elem "rights" []
        [Child.text ("© " ++ toString e.frontmatter.date.year ++
           " Lee Byron ⸱ licensed under CC BY 4.0")]])

/-- Translated from Feed in the source: the updated element takes the
last element of the last-modified timestamps sorted ascending (sort by
the comparator a - b, then pop).  On an empty entries list pop yields
undefined and toISO on it throws, so composing the feed fails: the
failure is the none result. -/
def Feed (ext : Externals) (entries : List Entry) : Option Child :=
  ((entries.map Entry.lastModified).mergeSort dtLe).getLast?.map fun updated =>
    Child.elem "feed"
      [("xmlns", AVal.s "http://www.w3.org/2005/Atom"), ("xml:lang", AVal.s "en-us")]
      ([Child.elem "id" [] [Child.text "https://leebyron.com/til/feed.xml"],
        Child.elem "link"
          [("rel", AVal.s "self"), ("type", AVal.s "application/atom+xml"),
           ("href", AVal.s "https://leebyron.com/til/feed.xml")] [],
        Child.elem "link"
          [("rel", AVal.s "alternate"), ("type", AVal.s "text/html"),
           ("href", AVal.s "https://leebyron.com/til/")] [],
        Child.elem "updated" [] [Child.text updated.toISO],
        Child.elem "title" [] [Child.text "Lee Byron / til"],
        Child.elem "subtitle" []
          [Child.text "Today I Learned: A bunch of brief blurbs on miscellaneous matter."],
        Child.elem "icon" [] [Child.text "https://leebyron.com/til/assets/favicon.png"],
        Child.elem "author" []
          [Child.elem "name" [] [Child.text "Lee Byron"],
           Child.elem "uri" [] [Child.text "https://leebyron.com"]],
        Child.elem "rights" [] [Child.text "© 2022 Lee Byron ⸱ licensed under CC BY 4.0"],
        Child.elem "generator" [("uri", AVal.s "https://github.com/leebyron/til")]
          [Child.text "til"]] ++
       entries.map (feedEntry ext))

/-- The build error taxonomy item the duplicate-permalink invariant
raises (spec section 7). -/
inductive BuildError where
  | duplicatePermalink

/-- Modelled from the spec: the build orchestrator is not under src
(spec section 9 records duplicate-permalink detection as a required
invariant of the build).  The build checks the computed permalinks for
duplicates and aborts with the fatal DuplicatePermalink error before
producing any output; otherwise it yields one entry page per entry at
its permalink path. -/
def build (ext : Externals) (entries : List Entry) :
    Except BuildError (List (String × Child)) :=
  if (entries.map fun e => e.frontmatter.permalink).Nodup then
    Except.ok (entries.map fun e =>
      (pagePath e.frontmatter, Page ext e.filename e.lastModified e.frontmatter e.markdown))
  else
    Except.error BuildError.duplicatePermalink

/-- The robots no-index meta element the spec requires for unpublished
entries. -/
def robotsMeta : Child :=
  Child.elem "meta" [("name", AVal.s "robots"), ("content", AVal.s "noindex")] []

/-- A paragraph text extractor for feed categories: the term
attributes of the category children of an entry element, in order. -/
def categoryTerms (c : Child) : List String :=
  c.childrenOf.filterMap fun ch =>
    match ch with
    | Child.elem "category" attrs _ =>
        match attrVal "term" attrs with
        | some (AVal.s v) => some v
        | _ => none
    | _ => none

/-- The innerHTML of the first content child element of an entry. -/
def contentInner (c : Child) : Option String :=
  (c.childrenOf.find? fun ch => ch.typeOf == some "content").bind fun ch =>
    match attrVal "innerHTML" ch.attrsOf with
    | some (AVal.s v) => some v
    | _ => none

/-- The content a meta element contributes when it carries the given
property attribute. -/
def metaProbe (prop : String) (c : Child) : Option String :=
  match c with
  | Child.elem "meta" attrs _ =>
      match attrVal "property" attrs with
      | some (AVal.s p) =>
          if p = prop then
            match attrVal "content" attrs with
            | some (AVal.s v) => some v
            | _ => none
          else none
      | _ => none
  | _ => none

/-- The content of the first meta element carrying the given property
attribute, searching a child list in order. -/
def metaContent (prop : String) (cs : List Child) : Option String :=
  cs.findSome? (metaProbe prop)

/-- An interleaving of two lists: l draws its elements from hs and bs,
keeping the relative order of each. -/
inductive Interleave : List Child → List Child → List Child → Prop where
  | nil : Interleave [] [] []
  | head (x : Child) {hs bs l : List Child} :
      Interleave hs bs l → Interleave (x :: hs) bs (x :: l)
  | body (x : Child) {hs bs l : List Child} :
      Interleave hs bs l → Interleave hs (x :: bs) (x :: l)

/-- A concrete external-collaborator instance for witnesses. -/
def ext0 : Externals :=
  ⟨fun _ p => p, fun _ => "", fun _ => Child.text "", fun _ => "", fun s => s⟩

/-- A concrete published front matter for witnesses. -/
def fmW : Frontmatter := ⟨"X", "x", ⟨1672531200000⟩, [], none⟩

/-- A concrete front matter with published strictly false. -/
def fmUnpub : Frontmatter := ⟨"X", "x", ⟨0⟩, [], some false⟩

/-- A concrete front matter with two tags. -/
def fmTagged : Frontmatter := ⟨"X", "x", ⟨0⟩, ["vim", "git"], none⟩

/-- A concrete front matter whose only tag is the empty string. -/
def fmCex : Frontmatter := ⟨"X", "x", ⟨0⟩, [""], none⟩

/-- A concrete entry last modified at the start of 2023. -/
def e1W : Entry := ⟨"a.md", fmW, [MDBlock.para ["Hello"]], ⟨1672531200000⟩⟩

/-- A concrete entry last modified in mid June 2023. -/
def e2W : Entry := ⟨"b.md", ⟨"Y", "y", ⟨1686787200000⟩, ["vim"], none⟩, [], ⟨1686787200000⟩⟩

/-- A concrete entry sharing the permalink of e1W. -/
def e1dup : Entry := ⟨"c.md", ⟨"Z", "x", ⟨0⟩, [], none⟩, [], ⟨0⟩⟩

/-- A concrete title element for the interleaving witness. -/
def tE : Child := Child.elem "title" [] []

/-- A concrete first meta element for the interleaving witness. -/
def mE1 : Child := Child.elem "meta" [("a", AVal.s "1")] []

/-- A concrete second meta element for the interleaving witness. -/
def mE2 : Child := Child.elem "meta" [("b", AVal.s "2")] []

/-- A concrete section element for the interleaving witness. -/
def sE : Child := Child.elem "section" [] []

/-- The head region of a Document is the charset meta, the children
classified as head content, then the fixed chrome. -/
theorem headOf_Document (ext : Externals) (path : String) (children : List Child) :
    headOf (Document ext path children) =
      charsetMeta :: (children.filter isHeadElement ++ headChrome ext path) := rfl

/-- The body region of a Document is the header, then the children not
classified as head content. -/
theorem bodyOf_Document (ext : Externals) (path : String) (children : List Child) :
    bodyOf (Document ext path children) =
      headerChrome ext path :: children.filter fun child => !isHeadElement child := rfl

/-- A string of length zero is the empty string. -/
theorem string_eq_empty_of_length (s : String) (h : s.length = 0) : s = "" := by
  cases s with
  | mk data =>
    have hd : data = [] := List.length_eq_zero.mp h
    subst hd
    rfl

/-- Appending a nonempty string on the right keeps a string nonempty. -/
theorem append_ne_empty_right (s t : String) (ht : t ≠ "") : s ++ t ≠ "" := by
  intro h
  have hl := congrArg String.length h
  rw [String.length_append] at hl
  have ht0 : t.length = 0 := by
    have : String.length "" = 0 := rfl
    omega
  exact ht (string_eq_empty_of_length t ht0)

/-- Appending a nonempty string on the left keeps a string nonempty. -/
theorem append_ne_empty_left (s t : String) (hs : s ≠ "") : s ++ t ≠ "" := by
  intro h
  have hl := congrArg String.length h
  rw [String.length_append] at hl
  have hs0 : s.length = 0 := by
    have : String.length "" = 0 := rfl
    omega
  exact hs (string_eq_empty_of_length s hs0)

/-- Taking the first 200 characters of a nonempty string is nonempty. -/
theorem take200_ne_empty (t : String) (h : t ≠ "") : t.take 200 ≠ "" := by
  intro he
  apply h
  have hd : List.take 200 t.data = [] := by
    have := congrArg String.data he
    rwa [String.data_take] at this
  rcases List.take_eq_nil_iff.mp hd with h200 | hdata
  · cases h200
  · cases t with
    | mk data =>
      have : data = [] := hdata
      subst this
      rfl

/-- The ISO serialization of a timestamp is never empty. -/
theorem toISO_ne_empty (dt : DateTime) : dt.toISO ≠ "" := by
  rw [DateTime.toISO]
  exact append_ne_empty_right _ "Z" (by decide)

/-- C4: the Entry Page binds the path context to the permalink path
for its whole subtree, the canonical link in its head is the site root
followed by that path context, and for permalink x the canonical href
ends in /x/. -/
theorem page_canonical_from_path (ext : Externals) (filename : String)
    (lastModified : DateTime) (fm : Frontmatter) (markdown : MDDoc) :
    pagePath fm = "/" ++ fm.permalink ++ "/" ∧
    canonicalLink (pagePath fm) ∈ headOf (Page ext filename lastModified fm markdown) ∧
    attrVal "href" (canonicalLink (pagePath fm)).attrsOf =
      some (AVal.s ("https://leebyron.com/til" ++ ("/" ++ fm.permalink ++ "/"))) ∧
    (∃ pre, "https://leebyron.com/til" ++ pagePath fmW = pre ++ "/x/") := by
  refine ⟨rfl, ?_, rfl, ⟨"https://leebyron.com/til", by decide⟩⟩
  rw [Page, headOf_Document]
  exact List.mem_cons_of_mem _ (List.mem_append_right _ (by simp [headChrome]))

/-- C7: composing the feed errors exactly when the entries list is
empty: with zero entries there is no aggregate data for the updated
timestamp and the composition fails rather than producing a document
with a missing or defaulted updated value. -/
theorem feed_empty_is_error (ext : Externals) (entries : List Entry) :
    Feed ext entries = none ↔ entries = [] := by
  rw [Feed, Option.map_eq_none', List.getLast?_eq_none_iff]
  constructor
  · intro h
    have hp := List.mergeSort_perm (entries.map Entry.lastModified) dtLe
    rw [h] at hp
    have hl := hp.length_eq
    rw [List.length_map] at hl
    exact List.length_eq_zero.mp hl.symm
  · intro h
    subst h
    simp

/-- C8: two entries at distinct positions with identical computed
permalinks make the build abort with the fatal DuplicatePermalink
error, so no output is produced and nothing is silently overwritten. -/
theorem build_duplicate_permalink (ext : Externals) (entries : List Entry)
    (i j : Nat) (hi : i < entries.length) (hj : j < entries.length) (hij : i ≠ j)
    (hperm : (entries.get ⟨i, hi⟩).frontmatter.permalink =
             (entries.get ⟨j, hj⟩).frontmatter.permalink) :
    build ext entries = Except.error BuildError.duplicatePermalink := by
  rw [build, if_neg]
  intro hnd
  have hinj := List.nodup_iff_injective_get.mp hnd
  have hlen : (entries.map fun e => e.frontmatter.permalink).length = entries.length :=
    List.length_map entries _
  have him : i < (entries.map fun e => e.frontmatter.permalink).length := by omega
  have hjm : j < (entries.map fun e => e.frontmatter.permalink).length := by omega
  have hgi : (entries.map fun e => e.frontmatter.permalink).get ⟨i, him⟩ =
      (entries.get ⟨i, hi⟩).frontmatter.permalink := List.get_map _
  have hgj : (entries.map fun e => e.frontmatter.permalink).get ⟨j, hjm⟩ =
      (entries.get ⟨j, hj⟩).frontmatter.permalink := List.get_map _
  have heq : (entries.map fun e => e.frontmatter.permalink).get ⟨i, him⟩ =
      (entries.map fun e => e.frontmatter.permalink).get ⟨j, hjm⟩ := by
    rw [hgi, hgj, hperm]
  have := hinj heq
  apply hij
  exact congrArg Fin.val this

/-- Witness for C8: two concrete entries both computing permalink x
abort the build with DuplicatePermalink. -/
theorem build_duplicate_permalink_witness :
    build ext0 [e1W, e1dup] = Except.error BuildError.duplicatePermalink :=
  build_duplicate_permalink ext0 [e1W, e1dup] 0 1 (by decide) (by decide)
    (by decide) rfl

/-- Filtering an interleaving of head-only and body-only children
recovers each side in its original order. -/
theorem interleave_filter {hs bs l : List Child} (hil : Interleave hs bs l)
    (hh : ∀ x ∈ hs, isHeadElement x = true)
    (hb : ∀ x ∈ bs, isHeadElement x = false) :
    l.filter isHeadElement = hs ∧ (l.filter fun c => !isHeadElement c) = bs := by
  induction hil with
  | nil => exact ⟨rfl, rfl⟩
  | head x hil ih =>
      have hx := hh x (List.mem_cons_self x _)
      obtain ⟨ih1, ih2⟩ := ih (fun y hy => hh y (List.mem_cons_of_mem x hy)) hb
      constructor
      · rw [List.filter_cons, if_pos (by simp [hx]), ih1]
      · rw [List.filter_cons, if_neg (by simp [hx]), ih2]
  | body x hil ih =>
      have hx := hb x (List.mem_cons_self x _)
      obtain ⟨ih1, ih2⟩ := ih hh (fun y hy => hb y (List.mem_cons_of_mem x hy))
      constructor
      · rw [List.filter_cons, if_neg (by simp [hx]), ih1]
      · rw [List.filter_cons, if_pos (by simp [hx]), ih2]

/-- C2: for any interleaving of head children (type title, meta, link
or script) with body children, the shared Document wrapper emits the
head children inside the head region and the body children inside the
body region, each group in its original relative order; and the
classification of an element is exactly membership of its type in that
four-element set, with typeless children always body content. -/
theorem document_partitions_children (ext : Externals) (path : String)
    {hs bs l : List Child} (hil : Interleave hs bs l)
    (hh : ∀ x ∈ hs, isHeadElement x = true)
    (hb : ∀ x ∈ bs, isHeadElement x = false) :
    headOf (Document ext path l) = charsetMeta :: (hs ++ headChrome ext path) ∧
    bodyOf (Document ext path l) = headerChrome ext path :: bs ∧
    (∀ t attrs cs, isHeadElement (Child.elem t attrs cs) = true ↔
      t ∈ ["title", "meta", "link", "script"]) ∧
    (∀ s, isHeadElement (Child.text s) = false) ∧ isHeadElement Child.nan = false := by
  obtain ⟨h1, h2⟩ := interleave_filter hil hh hb
  refine ⟨?_, ?_, ?_, fun s => rfl, rfl⟩
  · rw [headOf_Document, h1]
  · rw [bodyOf_Document, h2]
  · intro t attrs cs
    constructor
    · intro h
      unfold isHeadElement at h
      split at h
      · next heq => injection heq with ht _ _; simp [ht]
      · next heq => injection heq with ht _ _; simp [ht]
      · next heq => injection heq with ht _ _; simp [ht]
      · next heq => injection heq with ht _ _; simp [ht]
      · cases h
    · intro h
      simp at h
      rcases h with h | h | h | h <;> subst h <;> rfl

/-- Witness for C2: children tagged title, meta, section, meta place
the title and both metas in head in their original order and the
section in body, despite the interleaving. -/
theorem document_partitions_children_witness :
    headOf (Document ext0 "/" [tE, mE1, sE, mE2]) =
      charsetMeta :: ([tE, mE1, mE2] ++ headChrome ext0 "/") ∧
    bodyOf (Document ext0 "/" [tE, mE1, sE, mE2]) = headerChrome ext0 "/" :: [sE] := by
  have h := document_partitions_children ext0 "/"
    (Interleave.head tE (Interleave.head mE1
      (Interleave.body sE (Interleave.head mE2 Interleave.nil))))
    (by intro x hx; simp at hx; rcases hx with h | h | h <;> subst h <;> rfl)
    (by intro x hx; simp at hx; subst hx; rfl)
  exact ⟨h.1, h.2.1⟩

/-- The millisecond order is transitive in its boolean form. -/
theorem dtLe_trans (a b c : DateTime) :
    dtLe a b = true → dtLe b c = true → dtLe a c = true := by
  simp only [dtLe, decide_eq_true_eq]
  exact Int.le_trans

/-- The millisecond order is total in its boolean form. -/
theorem dtLe_total (a b : DateTime) : (dtLe a b || dtLe b a) = true := by
  simp only [dtLe, Bool.or_eq_true, decide_eq_true_eq]
  exact Int.le_total a.millis b.millis

/-- In a list pairwise sorted ascending by dtLe, the last element
bounds every element. -/
theorem sorted_getLast_max (l : List DateTime)
    (hp : l.Pairwise fun a b => dtLe a b = true) :
    ∀ u, l.getLast? = some u → ∀ x ∈ l, dtLe x u = true := by
  induction l with
  | nil => intro u hu; cases hu
  | cons a t ih =>
      intro u hu x hx
      rw [List.pairwise_cons] at hp
      obtain ⟨ha, ht⟩ := hp
      cases t with
      | nil =>
          simp at hu hx
          subst hu
          subst hx
          simp [dtLe]
      | cons b t2 =>
          have hu2 : (b :: t2).getLast? = some u := by
            rw [List.getLast?_cons_cons] at hu
            exact hu
          have humem : u ∈ b :: t2 := List.mem_of_mem_getLast? hu2
          rcases List.mem_cons.mp hx with hxa | hxt
          · subst hxa
            exact ha u humem
          · exact ih ht u hu2 x hxt

/-- C3: for a nonempty entries list, the feed-level updated element is
the ISO serialization of the maximum last-modified timestamp across
all entries, and every permutation of the entries yields the same
updated value, ties included. -/
theorem feed_updated_is_max (ext : Externals) (entries : List Entry)
    (hne : entries ≠ []) :
    ∃ u : DateTime,
      u ∈ entries.map Entry.lastModified ∧
      (∀ d ∈ entries.map Entry.lastModified, d.millis ≤ u.millis) ∧
      ∀ entries2 : List Entry, entries2.Perm entries →
        (Feed ext entries2).bind (elemText "updated") = some u.toISO := by
  have hLne : entries.map Entry.lastModified ≠ [] := by
    intro h
    exact hne (List.map_eq_nil_iff.mp h)
  have hSp := List.mergeSort_perm (entries.map Entry.lastModified) dtLe
  have hSne : (entries.map Entry.lastModified).mergeSort dtLe ≠ [] := by
    intro h
    rw [h] at hSp
    exact hLne hSp.nil_eq.symm
  obtain ⟨u, hu⟩ : ∃ u, ((entries.map Entry.lastModified).mergeSort dtLe).getLast? = some u := by
    rcases ho : ((entries.map Entry.lastModified).mergeSort dtLe).getLast? with _ | u
    · exact absurd (List.getLast?_eq_none_iff.mp ho) hSne
    · exact ⟨u, rfl⟩
  have hsorted := List.sorted_mergeSort dtLe_trans dtLe_total (entries.map Entry.lastModified)
  refine ⟨u, hSp.mem_iff.mp (List.mem_of_mem_getLast? hu), ?_, ?_⟩
  · intro d hd
    have := sorted_getLast_max _ hsorted u hu d (hSp.mem_iff.mpr hd)
    simpa [dtLe] using this
  · intro entries2 hperm
    have hS2 : (entries2.map Entry.lastModified).mergeSort dtLe =
        (entries.map Entry.lastModified).mergeSort dtLe := by
      apply List.eq_of_perm_of_sorted
        ((List.mergeSort_perm _ dtLe).trans
          ((hperm.map Entry.lastModified).trans hSp.symm))
        (List.sorted_mergeSort dtLe_trans dtLe_total _) hsorted
    rw [Feed, hS2, hu]
    simp [elemText, Child.childrenOf, Child.typeOf]

/-- Witness for C3: two concrete entries last modified at the start of
2023 and in mid June 2023. -/
theorem feed_updated_is_max_witness :
    ∃ u : DateTime,
      u ∈ [e1W, e2W].map Entry.lastModified ∧
      (∀ d ∈ [e1W, e2W].map Entry.lastModified, d.millis ≤ u.millis) ∧
      ∀ entries2 : List Entry, entries2.Perm [e1W, e2W] →
        (Feed ext0 entries2).bind (elemText "updated") = some u.toISO :=
  feed_updated_is_max ext0 [e1W, e2W] (by simp)

/-- The fields of one feed entry element, read back from the built
tree: type, published and updated texts, category terms in tag order,
and the CDATA wrapped rendered content. -/
theorem feedEntry_fields (ext : Externals) (e : Entry) :
    (feedEntry ext e).typeOf = some "entry" ∧
    elemText "published" (feedEntry ext e) = some e.frontmatter.date.toISO ∧
    elemText "updated" (feedEntry ext e) = some e.lastModified.toISO ∧
    categoryTerms (feedEntry ext e) = e.frontmatter.tags ∧
    contentInner (feedEntry ext e) = some ("<![CDATA[" ++ ext.renderMD e.markdown ++ "]]>") := by
  refine ⟨rfl, ?_, ?_, ?_, ?_⟩
  · simp [feedEntry, elemText, Child.childrenOf, Child.typeOf]
  · simp [feedEntry, elemText, Child.childrenOf, Child.typeOf]
  · simp only [feedEntry, categoryTerms, Child.childrenOf]
    simp only [List.cons_append, List.nil_append, List.filterMap_cons]
    rw [List.filterMap_append, List.filterMap_map]
    simp [attrVal, Function.comp]
    generalize e.frontmatter.tags = tags
    induction tags with
    | nil => rfl
    | cons a t ih =>
        rw [List.filterMap_cons]
        exact congrArg (List.cons a) ih
  · simp only [feedEntry, contentInner]
    simp [Child.childrenOf, List.find?_append, attrVal, Child.attrsOf, Child.typeOf]
    rw [show List.find?
        ((fun ch =>
            (match ch with
              | Child.elem t attrs children => some t
              | x => none) ==
              some "content") ∘
          fun tag => Child.elem "category" [("term", AVal.s tag)] [])
        e.frontmatter.tags = none from by
      rw [List.find?_eq_none]
      intro x hx
      simp]
    simp [attrVal, Child.attrsOf]

/-- C6: for a nonempty entries list the feed document is a feed
element rather than the head and body Document wrapper, none of its
direct children is an html, head or body wrapper, and its entry
children correspond one to one and in order with the entries: each
carries the front-matter publication timestamp as published, the
storage last-modified timestamp as updated, one category element with
a term attribute per front-matter tag in order, and a content element
whose value is the fully rendered HTML inside a CDATA wrapper. -/
theorem feed_entry_elements (ext : Externals) (entries : List Entry) (hne : entries ≠ []) :
    ∃ f, Feed ext entries = some f ∧
      f.typeOf = some "feed" ∧
      (∀ c ∈ f.childrenOf, c.typeOf ≠ some "html" ∧ c.typeOf ≠ some "head" ∧
        c.typeOf ≠ some "body") ∧
      List.Forall₂
        (fun (e : Entry) (c : Child) =>
          c.typeOf = some "entry" ∧
          elemText "published" c = some e.frontmatter.date.toISO ∧
          elemText "updated" c = some e.lastModified.toISO ∧
          categoryTerms c = e.frontmatter.tags ∧
          contentInner c = some ("<![CDATA[" ++ ext.renderMD e.markdown ++ "]]>"))
        entries (f.childrenOf.filter fun c => c.typeOf == some "entry") := by
  obtain ⟨u, hu⟩ : ∃ u, ((entries.map Entry.lastModified).mergeSort dtLe).getLast? = some u := by
    rcases ho : ((entries.map Entry.lastModified).mergeSort dtLe).getLast? with _ | u
    · rw [List.getLast?_eq_none_iff] at ho
      have hSp := List.mergeSort_perm (entries.map Entry.lastModified) dtLe
      rw [ho] at hSp
      exact absurd (List.map_eq_nil_iff.mp hSp.nil_eq.symm) hne
    · exact ⟨u, rfl⟩
  obtain ⟨f, hf⟩ : ∃ f, Feed ext entries = some f := by
    rw [Feed, hu]
    exact ⟨_, rfl⟩
  have hfeq := hf
  rw [Feed, hu] at hfeq
  simp only [Option.map_some'] at hfeq
  obtain rfl := (Option.some.inj hfeq).symm
  refine ⟨_, hf, rfl, ?_, ?_⟩
  · intro c hc
    simp only [Child.childrenOf, List.cons_append, List.nil_append, List.mem_cons] at hc
    rcases hc with rfl | rfl | rfl | rfl | rfl | rfl | rfl | rfl | rfl | rfl | hc
    all_goals try (refine ⟨?_, ?_, ?_⟩ <;> (simp [Child.typeOf]; done))
    rcases List.mem_map.mp hc with ⟨e2, he2, rfl⟩
    refine ⟨?_, ?_, ?_⟩ <;> simp [feedEntry, Child.typeOf]
  · show List.Forall₂ _ entries
      (List.filter (fun c => Child.typeOf c == some "entry") (entries.map (feedEntry ext)))
    rw [List.filter_map,
      show ((fun c => Child.typeOf c == some "entry") ∘ feedEntry ext) = fun e => true from
        funext fun e => rfl,
      List.filter_true, List.forall₂_map_right_iff, List.forall₂_same]
    intro x hx
    exact feedEntry_fields ext x

/-- Witness for C6 at a concrete two-entry list. -/
theorem feed_entry_elements_witness :
    ∃ f, Feed ext0 [e1W, e2W] = some f ∧
      f.typeOf = some "feed" ∧
      (∀ c ∈ f.childrenOf, c.typeOf ≠ some "html" ∧ c.typeOf ≠ some "head" ∧
        c.typeOf ≠ some "body") ∧
      List.Forall₂
        (fun (e : Entry) (c : Child) =>
          c.typeOf = some "entry" ∧
          elemText "published" c = some e.frontmatter.date.toISO ∧
          elemText "updated" c = some e.lastModified.toISO ∧
          categoryTerms c = e.frontmatter.tags ∧
          contentInner c = some ("<![CDATA[" ++ ext0.renderMD e.markdown ++ "]]>"))
        [e1W, e2W] (f.childrenOf.filter fun c => c.typeOf == some "entry") :=
  feed_entry_elements ext0 [e1W, e2W] (by simp)

/-- In a pair list with pairwise distinct keys, a key determines its
value. -/
theorem keys_nodup_fun {β : Type} (l : List (String × β))
    (h : (l.map Prod.fst).Nodup) {a : String} {b1 b2 : β}
    (h1 : (a, b1) ∈ l) (h2 : (a, b2) ∈ l) : b1 = b2 := by
  induction l with
  | nil => cases h1
  | cons p t ih =>
      rw [List.map_cons, List.nodup_cons] at h
      obtain ⟨hp, ht⟩ := h
      rcases List.mem_cons.mp h1 with heq1 | h1t
      · rcases List.mem_cons.mp h2 with heq2 | h2t
        · injection heq1.trans heq2.symm with hfst hsnd
        · rw [← heq1] at hp
          exact absurd (List.mem_map_of_mem Prod.fst h2t) hp
      · rcases List.mem_cons.mp h2 with heq2 | h2t
        · rw [← heq2] at hp
          exact absurd (List.mem_map_of_mem Prod.fst h1t) hp
        · exact ih ht h1t h2t

/-- Every child OpenGraph emits is either the empty text placeholder
of a falsy entry or the meta element of a truthy entry. -/
theorem OpenGraph_shape (data : List (String × String)) :
    ∀ e ∈ OpenGraph data,
      e = Child.text "" ∨ ∃ nc ∈ data, nc.2 ≠ "" ∧ e = ogMetaOf nc := by
  intro e he
  rw [OpenGraph] at he
  rcases List.mem_map.mp he with ⟨nc, hnc, rfl⟩
  by_cases hc : nc.2 = ""
  · left
    rw [if_pos hc]
  · right
    exact ⟨nc, hnc, hc, by rw [if_neg hc]⟩

/-- C9: a falsy (empty) value in the OpenGraph data produces no meta
element carrying its key under either the property or the name
attribute; a truthy value produces a meta element whose key goes under
the name attribute exactly when it starts with twitter: and under the
property attribute otherwise, never under both, with the value under
content. -/
theorem opengraph_falsy_dropped (data : List (String × String))
    (hnd : (data.map Prod.fst).Nodup) (n c : String) (hm : (n, c) ∈ data) :
    (c = "" → ∀ attrs cs, Child.elem "meta" attrs cs ∈ OpenGraph data →
      attrVal "property" attrs ≠ some (AVal.s n) ∧
      attrVal "name" attrs ≠ some (AVal.s n)) ∧
    (c ≠ "" → ∃ e ∈ OpenGraph data, e.typeOf = some "meta" ∧
      attrVal (if jsStartsWith n "twitter:" then "name" else "property") e.attrsOf =
        some (AVal.s n) ∧
      attrVal (if jsStartsWith n "twitter:" then "property" else "name") e.attrsOf = none ∧
      attrVal "content" e.attrsOf = some (AVal.s c)) := by
  constructor
  · intro hc attrs cs hmem
    rcases OpenGraph_shape data _ hmem with htext | ⟨nc, hnc, hne, heq⟩
    · cases htext
    · rw [ogMetaOf] at heq
      injection heq with _ hattrs _
      subst hattrs
      have hkey : ∀ hyp : nc.1 = n, False := by
        intro hyp
        have h1 : (n, nc.2) ∈ data := by
          rw [← hyp]
          exact Prod.mk.eta ▸ hnc
        have hv : nc.2 = c := keys_nodup_fun data hnd h1 hm
        rw [hc] at hv
        exact hne hv
      constructor
      · by_cases hts : jsStartsWith nc.1 "twitter:"
        · simp [attrVal, hts]
        · intro habs
          simp [attrVal, hts] at habs
          exact hkey habs
      · by_cases hts : jsStartsWith nc.1 "twitter:"
        · intro habs
          simp [attrVal, hts] at habs
          exact hkey habs
        · simp [attrVal, hts]
  · intro hc
    refine ⟨ogMetaOf (n, c), ?_, rfl, ?_, ?_, ?_⟩
    · rw [OpenGraph]
      refine List.mem_map.mpr ⟨(n, c), hm, ?_⟩
      rw [if_neg hc]
    · by_cases hts : jsStartsWith n "twitter:" <;>
        simp [ogMetaOf, attrVal, Child.attrsOf, hts]
    · by_cases hts : jsStartsWith n "twitter:" <;>
        simp [ogMetaOf, attrVal, Child.attrsOf, hts]
    · by_cases hts : jsStartsWith n "twitter:" <;>
        simp [ogMetaOf, attrVal, Child.attrsOf, hts]

/-- Witness for C9 at concrete data: the empty og value produces no
meta element for its key, and the twitter-keyed value is emitted under
the name attribute with its content. -/
theorem opengraph_falsy_dropped_witness :
    (∀ attrs cs, Child.elem "meta" attrs cs ∈ OpenGraph [("og:a", ""), ("twitter:b", "v")] →
      attrVal "property" attrs ≠ some (AVal.s "og:a") ∧
      attrVal "name" attrs ≠ some (AVal.s "og:a")) ∧
    (∃ e ∈ OpenGraph [("og:a", ""), ("twitter:b", "v")], e.typeOf = some "meta" ∧
      attrVal (if jsStartsWith "twitter:b" "twitter:" then "name" else "property") e.attrsOf =
        some (AVal.s "twitter:b") ∧
      attrVal (if jsStartsWith "twitter:b" "twitter:" then "property" else "name") e.attrsOf = none ∧
      attrVal "content" e.attrsOf = some (AVal.s "v")) :=
  ⟨(opengraph_falsy_dropped [("og:a", ""), ("twitter:b", "v")] (by decide) "og:a" ""
      (by decide)).1 rfl,
   (opengraph_falsy_dropped [("og:a", ""), ("twitter:b", "v")] (by decide) "twitter:b" "v"
      (by decide)).2 (by decide)⟩

/-- C10 (amended): the JSON-LD block of the Entry Page omits the
keywords member exactly when the joined tags string is falsy, which
happens when the tags list is empty or is the single empty tag;
otherwise keywords equals the tags joined by comma and space in
order. -/
theorem page_jsonld_keywords (fm : Frontmatter) (lastModified : DateTime) :
    (fm.tags = [] →
      (jsonldDefined (("@context", some (JVal.s "https://schema.org/")) ::
        pageJsonldData fm lastModified)).lookup "keywords" = none) ∧
    (String.intercalate ", " fm.tags = "" →
      (jsonldDefined (("@context", some (JVal.s "https://schema.org/")) ::
        pageJsonldData fm lastModified)).lookup "keywords" = none) ∧
    (String.intercalate ", " fm.tags ≠ "" →
      (jsonldDefined (("@context", some (JVal.s "https://schema.org/")) ::
        pageJsonldData fm lastModified)).lookup "keywords" =
        some (JVal.s (String.intercalate ", " fm.tags))) := by
  have hsplit : ∀ h0 : String.intercalate ", " fm.tags = "",
      (jsonldDefined (("@context", some (JVal.s "https://schema.org/")) ::
        pageJsonldData fm lastModified)).lookup "keywords" = none := by
    intro h0
    simp [jsonldDefined, pageJsonldData, h0, List.lookup]
  refine ⟨fun he => hsplit (by rw [he]; rfl), hsplit, fun hne => ?_⟩
  simp [jsonldDefined, pageJsonldData, hne, List.lookup]

/-- Counterexample for C10: a front-matter tags list holding one empty
string is nonempty, yet its join is the empty string, which is falsy,
so the code omits the keywords member instead of emitting the join as
the claim states. -/
theorem page_jsonld_keywords_cex :
    fmCex.tags ≠ [] ∧
    (jsonldDefined (("@context", some (JVal.s "https://schema.org/")) ::
      pageJsonldData fmCex ⟨0⟩)).lookup "keywords" ≠
      some (JVal.s (String.intercalate ", " fmCex.tags)) := by
  constructor
  · simp [fmCex]
  · simp [fmCex, jsonldDefined, pageJsonldData, List.lookup]

/-- Witness for C10 at concrete inputs: an empty tags list omits the
keywords member and a two-tag list joins with comma and space. -/
theorem page_jsonld_keywords_witness :
    (jsonldDefined (("@context", some (JVal.s "https://schema.org/")) ::
      pageJsonldData fmW ⟨0⟩)).lookup "keywords" = none ∧
    (jsonldDefined (("@context", some (JVal.s "https://schema.org/")) ::
      pageJsonldData fmTagged ⟨0⟩)).lookup "keywords" =
      some (JVal.s (String.intercalate ", " fmTagged.tags)) :=
  ⟨(page_jsonld_keywords fmW ⟨0⟩).1 rfl,
   (page_jsonld_keywords fmTagged ⟨0⟩).2.2 (by decide)⟩

/-- A findSome? step over a child yielding nothing. -/
theorem findSome?_skip {α β : Type} (f : α → Option β) (a : α) (l : List α)
    (h : f a = none) : List.findSome? f (a :: l) = List.findSome? f l := by
  rw [List.findSome?_cons, h]

/-- A findSome? step over a child yielding a result. -/
theorem findSome?_hit {α β : Type} (f : α → Option β) (a : α) (l : List α) (v : β)
    (h : f a = some v) : List.findSome? f (a :: l) = some v := by
  rw [List.findSome?_cons, h]

set_option maxRecDepth 8192 in
set_option maxHeartbeats 1600000 in
/-- C5: whenever the first-paragraph text of the compiled body is
nonempty, the og:description meta content of the Entry Page head is
exactly that text cut to its first 200 characters by straight slicing,
with no regard for word boundaries. -/
theorem page_og_description (ext : Externals) (filename : String)
    (lastModified : DateTime) (fm : Frontmatter) (markdown : MDDoc)
    (h : textFP markdown ≠ "") :
    metaContent "og:description" (headOf (Page ext filename lastModified fm markdown)) =
      some ((textFP markdown).take 200) := by
  have hOG : OpenGraph (pageOgData fm lastModified markdown) =
      (pageOgData fm lastModified markdown).map ogMetaOf := by
    rw [OpenGraph]
    apply List.map_congr_left
    have key : ∀ n v : String, v ≠ "" →
        (if (n, v).2 = "" then Child.text "" else ogMetaOf (n, v)) = ogMetaOf (n, v) :=
      fun n v hv => if_neg hv
    intro x hx
    rw [pageOgData] at hx
    simp only [List.mem_cons, List.not_mem_nil, or_false] at hx
    rcases hx with rfl | rfl | rfl | rfl | rfl | rfl | rfl | rfl | rfl | rfl
    · exact key "og:url" ("https://leebyron.com/til/" ++ fm.permalink ++ "/")
        (append_ne_empty_right ("https://leebyron.com/til/" ++ fm.permalink) "/" (by decide))
    · exact key "og:title" ("til / " ++ fm.title ++ " — Lee Byron")
        (append_ne_empty_right ("til / " ++ fm.title) " — Lee Byron" (by decide))
    · exact key "og:description" ((textFP markdown).take 200)
        (take200_ne_empty (textFP markdown) h)
    · exact key "og:type" "article" (by decide)
    · exact key "article:author:first_name" "Lee" (by decide)
    · exact key "article:author:last_name" "Byron" (by decide)
    · exact key "article:published_time" fm.date.toISO (toISO_ne_empty fm.date)
    · exact key "article:modified_time" lastModified.toISO (toISO_ne_empty lastModified)
    · exact key "twitter:card" "summary" (by decide)
    · exact key "twitter:creator" "@leeb" (by decide)
  have hfil : (pageChildren ext filename lastModified fm markdown).filter isHeadElement =
      Child.elem "title" [] [Child.text ("til / " ++ fm.title ++ " — Lee Byron")] ::
      ((pageOgData fm lastModified markdown).map ogMetaOf ++
        [JSONLD (pageJsonldData fm lastModified)]) := by
    rw [pageChildren, hOG]
    rw [List.filter_append, List.filter_append, List.filter_append]
    have h1 : (if fm.published = some false then [Child.nan] else []).filter isHeadElement =
        [] := by
      by_cases hp : fm.published = some false
      · rw [if_pos hp]
        rfl
      · rw [if_neg hp]
        rfl
    have h2 : ((pageOgData fm lastModified markdown).map ogMetaOf).filter isHeadElement =
        (pageOgData fm lastModified markdown).map ogMetaOf := by
      rw [List.filter_map,
        show (isHeadElement ∘ ogMetaOf) = fun nc => true from funext fun nc => rfl,
        List.filter_true]
    rw [h1, h2]
    rfl
  rw [Page, headOf_Document, hfil]
  simp only [pageOgData, List.map_cons, List.map_nil, List.cons_append, List.nil_append,
    ogMetaOf]
  rw [show (if jsStartsWith "og:url" "twitter:" then "name" else "property") = "property"
      from by decide,
    show (if jsStartsWith "og:title" "twitter:" then "name" else "property") = "property"
      from by decide,
    show (if jsStartsWith "og:description" "twitter:" then "name" else "property") = "property"
      from by decide]
  rw [metaContent]
  rw [findSome?_skip (metaProbe "og:description") charsetMeta _ rfl]
  rw [findSome?_skip (metaProbe "og:description")
    (Child.elem "title" [] [Child.text ("til / " ++ fm.title ++ " — Lee Byron")]) _ rfl]
  rw [findSome?_skip (metaProbe "og:description")
    (Child.elem "meta" [("property", AVal.s "og:url"),
      ("content", AVal.s ("https://leebyron.com/til/" ++ fm.permalink ++ "/"))] []) _ rfl]
  rw [findSome?_skip (metaProbe "og:description")
    (Child.elem "meta" [("property", AVal.s "og:title"),
      ("content", AVal.s ("til / " ++ fm.title ++ " — Lee Byron"))] []) _ rfl]
  rw [findSome?_hit (metaProbe "og:description")
    (Child.elem "meta" [("property", AVal.s "og:description"),
      ("content", AVal.s ((textFP markdown).take 200))] []) _
    ((textFP markdown).take 200) rfl]

/-- Witness for C5 at a concrete one-paragraph body. -/
theorem page_og_description_witness :
    textFP [MDBlock.para ["Hello"]] ≠ "" ∧
    metaContent "og:description"
      (headOf (Page ext0 "a.md" ⟨0⟩ fmW [MDBlock.para ["Hello"]])) =
      some ((textFP [MDBlock.para ["Hello"]]).take 200) :=
  ⟨by decide, page_og_description ext0 "a.md" ⟨0⟩ fmW [MDBlock.para ["Hello"]] (by decide)⟩

/-- The OpenGraph helper never emits the robots noindex meta element:
its keys go under the property attribute unless they start with
twitter:, which robots does not. -/
theorem OpenGraph_no_robots (data : List (String × String)) :
    robotsMeta ∉ OpenGraph data := by
  intro hmem
  rcases OpenGraph_shape data _ hmem with htext | ⟨nc, hnc, hne, heq⟩
  · cases htext
  · rw [robotsMeta, ogMetaOf] at heq
    injection heq with ht hattrs hcs
    injection hattrs with hpair hrest
    injection hpair with hkey hval
    injection hval with hv
    rw [← hv] at hkey
    rw [show jsStartsWith "robots" "twitter:" = false from by decide] at hkey
    simp at hkey

/-- C1: contrary to the spec sentence, the robots noindex meta never
appears in the Entry Page head for any published value: the stray
unary minus on the unpublished line of the source turns the meta node
into NaN, and when published is strictly false the page instead
carries that NaN child, classified as body content. -/
theorem page_never_emits_noindex (ext : Externals) (filename : String)
    (lastModified : DateTime) (fm : Frontmatter) (markdown : MDDoc) :
    robotsMeta ∉ headOf (Page ext filename lastModified fm markdown) ∧
    (fm.published = some false →
      Child.nan ∈ bodyOf (Page ext filename lastModified fm markdown)) := by
  constructor
  · intro hmem
    rw [Page, headOf_Document] at hmem
    rcases List.mem_cons.mp hmem with hch | hmem2
    · simp [robotsMeta, charsetMeta] at hch
    rcases List.mem_append.mp hmem2 with hfil | hchrome
    · have hpc := (List.mem_filter.mp hfil).1
      rw [pageChildren] at hpc
      rcases List.mem_append.mp hpc with h1 | htail
      · rcases List.mem_append.mp h1 with h2 | hOG
        · rcases List.mem_append.mp h2 with hA | htitle
          · by_cases hp : fm.published = some false
            · rw [if_pos hp] at hA
              simp [robotsMeta] at hA
            · rw [if_neg hp] at hA
              cases hA
          · simp [robotsMeta] at htitle
        · exact OpenGraph_no_robots _ hOG
      · simp [robotsMeta, JSONLD] at htail
    · simp [robotsMeta, headChrome, canonicalLink, GTag] at hchrome
  · intro hp
    rw [Page, bodyOf_Document]
    apply List.mem_cons_of_mem
    rw [List.mem_filter]
    constructor
    · rw [pageChildren, if_pos hp]
      exact List.mem_append_left _ (List.mem_cons_self _ _)
    · rfl

/-- Witness for C1 at a concrete entry with published strictly false:
no robots meta in head, and the NaN child sits in the body. -/
theorem page_never_emits_noindex_witness :
    robotsMeta ∉ headOf (Page ext0 "a.md" ⟨0⟩ fmUnpub []) ∧
    Child.nan ∈ bodyOf (Page ext0 "a.md" ⟨0⟩ fmUnpub []) :=
  ⟨(page_never_emits_noindex ext0 "a.md" ⟨0⟩ fmUnpub []).1,
   (page_never_emits_noindex ext0 "a.md" ⟨0⟩ fmUnpub []).2 rfl⟩
